import Mathlib

/-!
Verification of the notes-backend core (Go, `backend/cmd/server/main.go`)
against its natural-language specification.

Modelling conventions:
- Go strings are modelled as `List Char` (`GoStr`).  All string data that the
  claims exercise is single-byte, so Go's byte-indexed operations
  (`len`, slicing) coincide with character-indexed operations here.
- Character classification follows Go's `unicode.IsSpace` on its Latin-1
  fast path, and Go's `strings.ToLower` restricted to ASCII letters
  (the only case-mapping the claims exercise).
- The database is modelled as an in-memory list of rows; SQL queries are
  transcribed clause by clause (WHERE filter, ORDER BY sort, LIMIT/OFFSET
  slice); `NOW()` is an explicit `now : Nat` parameter.
- Go `int` is 64-bit two's complement; arithmetic that can overflow is
  wrapped explicitly with `wrap64`.
-/

namespace NotesApp

/-- Go strings, modelled as lists of characters. -/
abbrev GoStr := List Char

/-- Go `unicode.IsSpace` on the Latin-1 range: space, `\t`, `\n`, vertical
tab, form feed, `\r`, NEL (U+0085), NBSP (U+00A0).  Higher code points with
the White_Space property do not occur in any input considered here. -/
def goIsSpace (c : Char) : Bool :=
  c == ' ' || c == '\t' || c == '\n' || c == '\x0b' || c == '\x0c' ||
  c == '\r' || c == '\u0085' || c == ' '

/-- Go `strings.TrimSpace`: drop leading and trailing whitespace. -/
def trimSpace (s : GoStr) : GoStr :=
  ((s.dropWhile goIsSpace).reverse.dropWhile goIsSpace).reverse

/-- Go `strings.ToLower`, restricted to ASCII (`Char.toLower` lowers exactly
the ASCII uppercase letters). -/
def goToLower (s : GoStr) : GoStr :=
  s.map Char.toLower

/-- The loop body of `sanitizeTags` (main.go lines 730-743): lowercase and
trim the tag, drop it if empty, truncate to 32 characters, and append it to
`clean` unless already present (`uniq` and `clean` always hold the same
elements, so membership in `clean` models the `uniq` map lookup). -/
def sanitizeAux : List GoStr → List GoStr → List GoStr
  | [], clean => clean
  | tag :: rest, clean =>
    let t := goToLower (trimSpace tag)
    if t = [] then sanitizeAux rest clean
    else
      let t' := if t.length > 32 then t.take 32 else t
      if t' ∈ clean then sanitizeAux rest clean
      else sanitizeAux rest (clean ++ [t'])

/-- Go `sanitizeTags` (main.go lines 724-745). -/
def sanitizeTags (tags : List GoStr) : List GoStr :=
  sanitizeAux tags []

/-- The per-tag normalization `sanitizeTags` applies before de-duplication:
lowercase, trim, truncate to 32 characters. -/
def normalizeTag (tag : GoStr) : GoStr :=
  let t := goToLower (trimSpace tag)
  if t.length > 32 then t.take 32 else t

/-- De-duplication keeping the first occurrence of each element. -/
def firstDedup (l : List GoStr) : List GoStr :=
  l.foldl (fun acc x => if x ∈ acc then acc else acc ++ [x]) []

theorem normalizeTag_length (tag : GoStr) : (normalizeTag tag).length ≤ 32 := by
  simp only [normalizeTag]
  split
  · simp [List.length_take]
  · omega

theorem normalizeTag_eq_nil_iff (tag : GoStr) :
    normalizeTag tag = [] ↔ goToLower (trimSpace tag) = [] := by
  simp only [normalizeTag]
  split
  · rename_i h
    constructor
    · intro ht
      have : (List.take 32 (goToLower (trimSpace tag))).length = 0 := by
        rw [ht]; rfl
      rw [List.length_take] at this
      omega
    · intro ht; rw [ht]; rfl
  · exact Iff.rfl

theorem sanitizeAux_eq_foldl (tags : List GoStr) (clean : List GoStr) :
    sanitizeAux tags clean =
      ((tags.map normalizeTag).filter (fun t => !t.isEmpty)).foldl
        (fun acc x => if x ∈ acc then acc else acc ++ [x]) clean := by
  induction tags generalizing clean with
  | nil => rfl
  | cons tag rest ih =>
    show sanitizeAux (tag :: rest) clean = _
    unfold sanitizeAux
    simp only [List.map_cons, List.filter_cons]
    by_cases h : goToLower (trimSpace tag) = []
    · have hnil : normalizeTag tag = [] := (normalizeTag_eq_nil_iff tag).mpr h
      simp only [h, if_pos rfl, hnil]
      simp only [List.isEmpty_nil, Bool.not_true, Bool.false_eq_true, if_false]
      exact ih clean
    · have hnn : normalizeTag tag ≠ [] := fun hc => h ((normalizeTag_eq_nil_iff tag).mp hc)
      simp only [if_neg h]
      have hne : (normalizeTag tag).isEmpty = false := by
        cases hx : normalizeTag tag with
        | nil => exact absurd hx hnn
        | cons a l => rfl
      simp only [hne, Bool.not_false, if_pos]
      have hnt : (if (goToLower (trimSpace tag)).length > 32 then
          (goToLower (trimSpace tag)).take 32 else goToLower (trimSpace tag)) =
          normalizeTag tag := rfl
      rw [hnt]
      rw [List.foldl_cons]
      by_cases hm : normalizeTag tag ∈ clean
      · simp only [if_pos hm]
        exact ih clean
      · simp only [if_neg hm]
        exact ih (clean ++ [normalizeTag tag])

theorem foldl_dedup_nodup (l : List GoStr) (acc : List GoStr) (h : acc.Nodup) :
    (l.foldl (fun acc x => if x ∈ acc then acc else acc ++ [x]) acc).Nodup := by
  induction l generalizing acc with
  | nil => exact h
  | cons x rest ih =>
    simp only [List.foldl_cons]
    by_cases hm : x ∈ acc
    · simp only [if_pos hm]; exact ih acc h
    · simp only [if_neg hm]
      exact ih (acc ++ [x]) (by simp [List.nodup_append, h, hm])

theorem mem_foldl_dedup (l : List GoStr) (acc : List GoStr) (t : GoStr)
    (h : t ∈ l.foldl (fun acc x => if x ∈ acc then acc else acc ++ [x]) acc) :
    t ∈ acc ∨ t ∈ l := by
  induction l generalizing acc with
  | nil => exact Or.inl h
  | cons x rest ih =>
    simp only [List.foldl_cons] at h
    by_cases hm : x ∈ acc
    · simp only [if_pos hm] at h
      rcases ih acc h with h' | h'
      · exact Or.inl h'
      · exact Or.inr (List.mem_cons_of_mem _ h')
    · simp only [if_neg hm] at h
      rcases ih (acc ++ [x]) h with h' | h'
      · rcases List.mem_append.mp h' with h'' | h''
        · exact Or.inl h''
        · simp only [List.mem_singleton] at h''
          exact Or.inr (h'' ▸ List.mem_cons_self x rest)
      · exact Or.inr (List.mem_cons_of_mem _ h')

/-- C1 counterexample input: 31 `a`s followed by `" b"` — already trimmed,
33 characters long, so truncation at 32 cuts inside and leaves a trailing
space. -/
def c1TagIn : GoStr := List.replicate 31 'a' ++ [' ', 'b']

/-- C1 counterexample output: `sanitizeTags` stores 31 `a`s followed by a
trailing space. -/
def c1TagOut : GoStr := List.replicate 31 'a' ++ [' ']

/-- C1: counterexample.  The claim says every stored element is trimmed
(surrounding-whitespace free), but truncation to 32 characters happens after
trimming: on input `["aaaaaaaaaaaaaaaaaaaaaaaaaaaaaaa b"]` (31 `a`s, space,
`b`) the stored list is `["aaaaaaaaaaaaaaaaaaaaaaaaaaaaaaa "]`, whose single
element ends in a space and is not equal to its own trim. -/
theorem C1_counterexample :
    sanitizeTags [c1TagIn] = [c1TagOut] ∧ trimSpace c1TagOut ≠ c1TagOut := by
  constructor
  · rfl
  · decide

/-- C1 (amended): for every submitted tag list the stored list has no
duplicates, no empty strings, no element exceeding 32 characters; every
element is the normalization (lowercase, trim, then truncate to 32
characters — which may leave trailing whitespace) of some submitted tag;
the stored list is exactly the first-occurrence de-duplication of the
normalized non-empty tags; and the spec's example `["A","a"," a "]` is
stored as `["a"]`. -/
theorem C1_tags_normalized (tags : List GoStr) :
    (sanitizeTags tags).Nodup ∧
    (∀ t ∈ sanitizeTags tags, t ≠ [] ∧ t.length ≤ 32 ∧ ∃ tag ∈ tags, t = normalizeTag tag) ∧
    sanitizeTags tags = firstDedup ((tags.map normalizeTag).filter (fun t => !t.isEmpty)) ∧
    sanitizeTags [['A'], ['a'], [' ', 'a', ' ']] = [['a']] := by
  have hfold := sanitizeAux_eq_foldl tags []
  have hsan : sanitizeTags tags =
      firstDedup ((tags.map normalizeTag).filter (fun t => !t.isEmpty)) := hfold
  refine ⟨?_, ?_, hsan, by decide⟩
  · rw [hsan]
    exact foldl_dedup_nodup _ [] List.nodup_nil
  · intro t ht
    rw [hsan] at ht
    have hmem := mem_foldl_dedup _ [] t ht
    rcases hmem with h | h
    · cases h
    · have h' := List.mem_filter.mp h
      have hmap := List.mem_map.mp h'.1
      rcases hmap with ⟨tag, htag, heq⟩
      refine ⟨?_, ?_, tag, htag, heq.symm⟩
      · intro hnil
        rw [hnil] at h'
        simp at h'
      · rw [← heq]
        exact normalizeTag_length tag

theorem trimSpace_eq_nil_iff (s : GoStr) :
    trimSpace s = [] ↔ ∀ c ∈ s, goIsSpace c = true := by
  unfold trimSpace
  rw [List.reverse_eq_nil_iff, List.dropWhile_eq_nil_iff]
  constructor
  · intro h c hc
    have hsplit : s.takeWhile goIsSpace ++ s.dropWhile goIsSpace = s :=
      List.takeWhile_append_dropWhile goIsSpace s
    rw [← hsplit] at hc
    rcases List.mem_append.mp hc with h' | h'
    · exact List.mem_takeWhile_imp h'
    · exact h c (List.mem_reverse.mpr h')
  · intro h c hc
    exact h c (List.dropWhile_sublist goIsSpace |>.subset (List.mem_reverse.mp hc))

/-- A stored note row (table `notes`).  `id` models the UUID primary key;
timestamps are abstract clock readings. -/
structure Note where
  id : Nat
  title : GoStr
  content : GoStr
  tags : List GoStr
  isFavorite : Bool
  createdAt : Nat
  updatedAt : Nat
deriving DecidableEq

/-- The JSON request body of create/update (`title`, `content`, `tags`,
`is_favorite`). -/
structure NotePayload where
  title : GoStr
  content : GoStr
  tags : List GoStr
  isFavorite : Bool
deriving DecidableEq

/-- Title normalization shared by create and update (main.go lines 516-519
and 565-568): trim, and substitute `"Untitled"` when the trim is empty. -/
def normalizeTitle (title : GoStr) : GoStr :=
  let t := trimSpace title
  if t = [] then "Untitled".toList else t

/-- The row inserted by `handleCreateNote` (main.go lines 524-528):
normalized title and tags, verbatim content, submitted favorite flag, both
timestamps set to the insertion clock (`DEFAULT NOW()`). -/
def createdRow (req : NotePayload) (id now : Nat) : Note :=
  { id := id, title := normalizeTitle req.title, content := req.content,
    tags := sanitizeTags req.tags, isFavorite := req.isFavorite,
    createdAt := now, updatedAt := now }

/-- The row written by `handleUpdateNote`'s UPDATE (main.go lines 572-581):
normalized title and tags, verbatim content, submitted favorite flag,
`updated_at = NOW()`, `id` and `created_at` unchanged. -/
def updateNoteRow (req : NotePayload) (now : Nat) (n : Note) : Note :=
  { n with title := normalizeTitle req.title, content := req.content,
           tags := sanitizeTags req.tags, isFavorite := req.isFavorite,
           updatedAt := now }

/-- An HTTP response as observable to the caller: either a JSON payload of
one of the handlers' success shapes, 204 No Content, or the `writeError`
shape — a status code plus an error-message body. -/
inductive Response where
  | okList (items : List Note) (page limit : Int) (total : Nat)
  | okNote (status : Nat) (n : Note)
  | okJson (status : Nat)
  | noContent
  | errResp (status : Nat) (msg : GoStr)
deriving DecidableEq

/-- Go `writeError` (main.go lines 753-755). -/
def writeError (status : Nat) (msg : GoStr) : Response :=
  .errResp status msg

/-- `handleCreateNote` after JSON decoding (main.go lines 502-543): inserts
the normalized row and returns it with 201.  Returns (response, new table
contents). -/
def handleCreateNote (db : List Note) (req : NotePayload) (id now : Nat) :
    Response × List Note :=
  let n := createdRow req id now
  (.okNote 201 n, db ++ [n])

/-- `handleGetNote` (main.go lines 477-500): `SELECT ... WHERE id = $1`,
404 when no row matches. -/
def handleGetNote (db : List Note) (id : Nat) : Response :=
  match db.find? (fun n => n.id == id) with
  | some n => .okNote 200 n
  | none => writeError 404 "note not found".toList

/-- `handleDeleteNote` (main.go lines 602-620): `DELETE ... WHERE id = $1`,
404 when zero rows were affected, else 204. -/
def handleDeleteNote (db : List Note) (id : Nat) : Response × List Note :=
  let remaining := db.filter (fun n => !(n.id == id))
  let affected := db.length - remaining.length
  (if affected = 0 then writeError 404 "note not found".toList else .noContent,
   remaining)

/-- C6: on create and on update, a title whose characters are all whitespace
(including the empty title) is stored as the literal `"Untitled"`; any other
title is stored trimmed of surrounding whitespace; content is stored exactly
as submitted in both cases. -/
theorem C6_title_normalization (req : NotePayload) (id now : Nat) (n : Note) :
    ((∀ c ∈ req.title, goIsSpace c = true) →
      (createdRow req id now).title = "Untitled".toList ∧
      (updateNoteRow req now n).title = "Untitled".toList) ∧
    ((¬ ∀ c ∈ req.title, goIsSpace c = true) →
      (createdRow req id now).title = trimSpace req.title ∧
      (updateNoteRow req now n).title = trimSpace req.title) ∧
    (createdRow req id now).content = req.content ∧
    (updateNoteRow req now n).content = req.content := by
  refine ⟨?_, ?_, rfl, rfl⟩
  · intro h
    have ht : trimSpace req.title = [] := (trimSpace_eq_nil_iff req.title).mpr h
    constructor
    · show normalizeTitle req.title = _
      simp [normalizeTitle, ht]
    · show normalizeTitle req.title = _
      simp [normalizeTitle, ht]
  · intro h
    have ht : trimSpace req.title ≠ [] := fun hc =>
      h ((trimSpace_eq_nil_iff req.title).mp hc)
    constructor
    · show normalizeTitle req.title = _
      simp [normalizeTitle, ht]
    · show normalizeTitle req.title = _
      simp [normalizeTitle, ht]

/-- Example payload with a whitespace-only title, used to exercise C6. -/
def blankTitleReq : NotePayload :=
  { title := [' ', '\t'], content := ['x'], tags := [], isFavorite := false }

/-- C6 witness: the whitespace-only title `" \t"` is stored as `"Untitled"`
and the content `"x"` verbatim, on a concrete create call. -/
theorem C6_title_normalization_witness :
    (createdRow blankTitleReq 0 0).title = "Untitled".toList ∧
    (createdRow blankTitleReq 0 0).content = ['x'] := by
  have h := C6_title_normalization blankTitleReq 0 0 (createdRow blankTitleReq 0 0)
  exact ⟨(h.1 (by decide)).1, h.2.2.1⟩

/-- C8: round-trip.  After a create with a fresh id, get on that id returns
exactly the stored normalized row (normalized title and tags, verbatim
content, submitted favorite flag, both timestamps at the insertion clock);
and on any table containing a row with id `id2`, delete(id2) answers 204 and
a subsequent get(id2) answers 404 `note not found`. -/
theorem C8_roundtrip (db db2 : List Note) (req : NotePayload) (id id2 now : Nat)
    (hfresh : ∀ n ∈ db, n.id ≠ id) (hmem : ∃ n ∈ db2, n.id = id2) :
    handleGetNote (handleCreateNote db req id now).2 id =
      .okNote 200 { id := id, title := normalizeTitle req.title,
                    content := req.content, tags := sanitizeTags req.tags,
                    isFavorite := req.isFavorite, createdAt := now,
                    updatedAt := now } ∧
    (handleDeleteNote db2 id2).1 = .noContent ∧
    handleGetNote (handleDeleteNote db2 id2).2 id2 =
      writeError 404 "note not found".toList := by
  refine ⟨?_, ?_, ?_⟩
  · show handleGetNote (db ++ [createdRow req id now]) id = _
    unfold handleGetNote
    rw [List.find?_append]
    have hnone : db.find? (fun n => n.id == id) = none := by
      rw [List.find?_eq_none]
      intro x hx
      simp only [beq_iff_eq]
      exact hfresh x hx
    rw [hnone]
    simp [createdRow]
  · show (if db2.length - (db2.filter (fun n => !(n.id == id2))).length = 0
      then _ else Response.noContent) = Response.noContent
    have hlt : (db2.filter (fun n => !(n.id == id2))).length < db2.length := by
      rw [List.length_filter_lt_length_iff_exists]
      rcases hmem with ⟨n, hn, hid⟩
      exact ⟨n, hn, by simp [hid]⟩
    have : db2.length - (db2.filter (fun n => !(n.id == id2))).length ≠ 0 := by
      omega
    simp [this]
  · show handleGetNote (db2.filter (fun n => !(n.id == id2))) id2 = _
    unfold handleGetNote
    have hnone : (db2.filter (fun n => !(n.id == id2))).find?
        (fun n => n.id == id2) = none := by
      rw [List.find?_eq_none]
      intro x hx
      have := (List.mem_filter.mp hx).2
      simp only [Bool.not_eq_true'] at this
      simp [this]
    rw [hnone]

/-- A concrete stored note used to exercise delete-then-get. -/
def exampleNote : Note :=
  { id := 7, title := ['n'], content := [], tags := [], isFavorite := false,
    createdAt := 0, updatedAt := 0 }

/-- C8 witness: the round-trip at a concrete empty table (create with id 1)
and a concrete one-row table (delete the row with id 7). -/
theorem C8_roundtrip_witness :
    handleGetNote (handleCreateNote [] blankTitleReq 1 2).2 1 =
      .okNote 200 { id := 1, title := normalizeTitle blankTitleReq.title,
                    content := blankTitleReq.content,
                    tags := sanitizeTags blankTitleReq.tags,
                    isFavorite := blankTitleReq.isFavorite, createdAt := 2,
                    updatedAt := 2 } ∧
    (handleDeleteNote [exampleNote] 7).1 = .noContent ∧
    handleGetNote (handleDeleteNote [exampleNote] 7).2 7 =
      writeError 404 "note not found".toList :=
  C8_roundtrip [] [exampleNote] blankTitleReq 1 7 2 (by simp)
    ⟨exampleNote, by simp, rfl⟩

/-- A stored session row (table `sessions`); the `id` column plays no role
in validation or revocation and is omitted. -/
structure Session where
  token : GoStr
  expiresAt : Nat
deriving DecidableEq

/-- The `EXISTS(SELECT 1 FROM sessions WHERE token = $1 AND expires_at >
NOW())` check used by `requireSession` (main.go lines 298-305). -/
def sessionValid (sessions : List Session) (token : GoStr) (now : Nat) : Bool :=
  sessions.any (fun s => s.token == token && decide (now < s.expiresAt))

/-- Outcome of the session middleware: either the request is terminated with
an error response, or it proceeds carrying the validated token. -/
inductive AuthResult where
  | denied (resp : Response)
  | granted (token : GoStr)
deriving DecidableEq

/-- `requireSession` (main.go lines 288-318): 401 when the cookie is absent
or trims to empty; otherwise look up the trimmed value and 401 unless a
matching unexpired row exists. -/
def requireSession (sessions : List Session) (now : Nat) (cookie : Option GoStr) :
    AuthResult :=
  match cookie with
  | none => .denied (writeError 401 "unauthorized".toList)
  | some v =>
    if trimSpace v = [] then .denied (writeError 401 "unauthorized".toList)
    else if sessionValid sessions (trimSpace v) now then .granted (trimSpace v)
    else .denied (writeError 401 "unauthorized".toList)

/-- `handleLogout` (main.go lines 356-363): when a cookie is present and its
trim is non-empty, `DELETE FROM sessions WHERE token = $1` with the
UNTRIMMED cookie value; always answers 200 `ok:true`. -/
def handleLogout (sessions : List Session) (cookie : Option GoStr) :
    List Session × Response :=
  match cookie with
  | none => (sessions, .okJson 200)
  | some v =>
    if trimSpace v ≠ [] then
      (sessions.filter (fun s => !(s.token == v)), .okJson 200)
    else (sessions, .okJson 200)

/-- C4: when no session row carries the trimmed cookie token (store `s1`),
and when every row carrying it has already expired (store `s2`), validation
returns false in both stores, the middleware answers 401 `unauthorized` in
both, and the two responses are literally identical, so a caller cannot
distinguish a never-issued token from an expired one. -/
theorem C4_session_indistinguishable (s1 s2 : List Session) (now : Nat) (v : GoStr)
    (h1 : ∀ s ∈ s1, s.token ≠ trimSpace v)
    (h2 : ∀ s ∈ s2, s.token = trimSpace v → s.expiresAt ≤ now) :
    sessionValid s1 (trimSpace v) now = false ∧
    sessionValid s2 (trimSpace v) now = false ∧
    requireSession s1 now (some v) = .denied (writeError 401 "unauthorized".toList) ∧
    requireSession s2 now (some v) = .denied (writeError 401 "unauthorized".toList) ∧
    requireSession s1 now (some v) = requireSession s2 now (some v) := by
  have hv1 : sessionValid s1 (trimSpace v) now = false := by
    rw [sessionValid, List.any_eq_false]
    intro s hs
    simp only [Bool.and_eq_true, beq_iff_eq, decide_eq_true_eq, not_and]
    intro hc
    exact absurd hc (h1 s hs)
  have hv2 : sessionValid s2 (trimSpace v) now = false := by
    rw [sessionValid, List.any_eq_false]
    intro s hs
    simp only [Bool.and_eq_true, beq_iff_eq, decide_eq_true_eq, not_and]
    intro hc hlt
    exact absurd hlt (Nat.not_lt.mpr (h2 s hs hc))
  have hr1 : requireSession s1 now (some v) =
      .denied (writeError 401 "unauthorized".toList) := by
    unfold requireSession
    by_cases he : trimSpace v = []
    · simp [he]
    · simp [he, hv1]
  have hr2 : requireSession s2 now (some v) =
      .denied (writeError 401 "unauthorized".toList) := by
    unfold requireSession
    by_cases he : trimSpace v = []
    · simp [he]
    · simp [he, hv2]
  exact ⟨hv1, hv2, hr1, hr2, hr1.trans hr2.symm⟩

/-- C4 witness: at `now = 5`, an empty store and a store holding only the
token `"t"` expired at 5 both answer the identical 401 to cookie `"t"`. -/
theorem C4_session_indistinguishable_witness :
    sessionValid [] (trimSpace ['t']) 5 = false ∧
    sessionValid [{ token := ['t'], expiresAt := 5 }] (trimSpace ['t']) 5 = false ∧
    requireSession [] 5 (some ['t']) =
      .denied (writeError 401 "unauthorized".toList) ∧
    requireSession [{ token := ['t'], expiresAt := 5 }] 5 (some ['t']) =
      .denied (writeError 401 "unauthorized".toList) ∧
    requireSession [] 5 (some ['t']) =
      requireSession [{ token := ['t'], expiresAt := 5 }] 5 (some ['t']) :=
  C4_session_indistinguishable [] [{ token := ['t'], expiresAt := 5 }] 5 ['t']
    (by simp) (by decide)

/-- C9: the middleware validates the cookie value after trimming, but logout
deletes with the untrimmed value.  For a cookie `v` with `trim v ≠ v` whose
trimmed form is a stored unexpired token, and no row storing `v` itself:
authenticated requests succeed, logout answers 200 yet leaves the session
table unchanged, and the same cookie is still accepted afterwards. -/
theorem C9_logout_trim_mismatch (sessions : List Session) (now e : Nat) (v : GoStr)
    (hne : trimSpace v ≠ v)
    (hnn : trimSpace v ≠ [])
    (hrow : ({ token := trimSpace v, expiresAt := e } : Session) ∈ sessions)
    (hvalid : now < e)
    (hnov : ∀ s ∈ sessions, s.token ≠ v) :
    requireSession sessions now (some v) = .granted (trimSpace v) ∧
    (handleLogout sessions (some v)).2 = .okJson 200 ∧
    (handleLogout sessions (some v)).1 = sessions ∧
    requireSession (handleLogout sessions (some v)).1 now (some v) =
      .granted (trimSpace v) := by
  have hval : sessionValid sessions (trimSpace v) now = true := by
    rw [sessionValid, List.any_eq_true]
    exact ⟨_, hrow, by simp [hvalid]⟩
  have hreq : requireSession sessions now (some v) = .granted (trimSpace v) := by
    unfold requireSession
    simp [hnn, hval]
  have hkeep : (handleLogout sessions (some v)).1 = sessions := by
    unfold handleLogout
    simp only [hnn, ne_eq, not_false_iff, if_true]
    rw [List.filter_eq_self]
    intro s hs
    simp [hnov s hs]
  refine ⟨hreq, ?_, hkeep, by rw [hkeep]; exact hreq⟩
  unfold handleLogout
  simp [hnn]

/-- C9 witness: cookie `" t"` (leading space) against a store holding the
token `"t"` valid until 9, at `now = 0`. -/
theorem C9_logout_trim_mismatch_witness :
    requireSession [{ token := ['t'], expiresAt := 9 }] 0 (some [' ', 't']) =
      .granted (trimSpace [' ', 't']) ∧
    (handleLogout [{ token := ['t'], expiresAt := 9 }] (some [' ', 't'])).2 =
      .okJson 200 ∧
    (handleLogout [{ token := ['t'], expiresAt := 9 }] (some [' ', 't'])).1 =
      [{ token := ['t'], expiresAt := 9 }] ∧
    requireSession (handleLogout [{ token := ['t'], expiresAt := 9 }]
        (some [' ', 't'])).1 0 (some [' ', 't']) =
      .granted (trimSpace [' ', 't']) :=
  C9_logout_trim_mismatch [{ token := ['t'], expiresAt := 9 }] 0 9 [' ', 't']
    (by decide) (by decide) (by decide) (by decide) (by decide)

/-- Accumulate a decimal value over digit characters; any non-digit makes the
whole parse fail, as in Go `strconv.ParseInt` with base 10. -/
def parseDigits : List Char → Nat → Option Nat
  | [], acc => some acc
  | c :: rest, acc =>
    if c.isDigit then parseDigits rest (acc * 10 + (c.toNat - 48)) else none

/-- Smallest value of Go's 64-bit `int`. -/
def int64Min : Int := -9223372036854775808

/-- Largest value of Go's 64-bit `int`. -/
def int64Max : Int := 9223372036854775807

/-- Apply a parsed sign to a parsed magnitude. -/
def signApply (neg : Bool) (n : Nat) : Int :=
  if neg then -(n : Int) else (n : Int)

/-- The digits-and-range part of Go `strconv.ParseInt`: at least one digit,
no other characters, and the signed value must fit 64 bits. -/
def goAtoiCore (neg : Bool) (digits : GoStr) : Option Int :=
  if digits.isEmpty then none
  else
    match parseDigits digits 0 with
    | none => none
    | some n =>
      if signApply neg n < int64Min ∨ int64Max < signApply neg n then none
      else some (signApply neg n)

/-- Go `strconv.Atoi` on a 64-bit platform: optional sign, then digits. -/
def goAtoi (s : GoStr) : Option Int :=
  match s with
  | '+' :: rest => goAtoiCore false rest
  | '-' :: rest => goAtoiCore true rest
  | _ => goAtoiCore false s

/-- Go `parsePositiveInt` (main.go lines 713-722). -/
def parsePositiveInt (raw : GoStr) (fallback : Int) : Int :=
  if raw.isEmpty then fallback
  else
    match goAtoi raw with
    | none => fallback
    | some v => if v ≤ 0 then fallback else v

/-- Reduce an integer into two's-complement 64-bit range, as Go `int`
arithmetic does on overflow. -/
def wrap64 (x : Int) : Int :=
  (x + 9223372036854775808) % 18446744073709551616 - 9223372036854775808

/-- The page/limit/offset values computed by `handleListNotes`
(main.go lines 419-424). -/
structure Paging where
  page : Int
  limit : Int
  offset : Int
deriving DecidableEq

/-- main.go lines 419-424: `page`/`limit` through `parsePositiveInt` with
fallbacks 1 and 30, `limit` capped at 100, `offset := (page - 1) * limit`
in Go `int` (64-bit wrapping) arithmetic. -/
def listPaging (pageRaw limitRaw : GoStr) : Paging :=
  let page := parsePositiveInt pageRaw 1
  let limit0 := parsePositiveInt limitRaw 30
  let limit := if limit0 > 100 then 100 else limit0
  { page := page, limit := limit, offset := wrap64 (wrap64 (page - 1) * limit) }

theorem goAtoiCore_bounds (neg : Bool) (digits : GoStr) (v : Int)
    (h : goAtoiCore neg digits = some v) : int64Min ≤ v ∧ v ≤ int64Max := by
  unfold goAtoiCore at h
  split at h
  · exact absurd h (by simp)
  · split at h
    · exact absurd h (by simp)
    · split at h
      · exact absurd h (by simp)
      · rename_i hcond
        injection h with h
        push_neg at hcond
        rw [← h]
        exact hcond

theorem goAtoi_bounds (s : GoStr) (v : Int) (h : goAtoi s = some v) :
    int64Min ≤ v ∧ v ≤ int64Max := by
  unfold goAtoi at h
  split at h
  · exact goAtoiCore_bounds _ _ _ h
  · exact goAtoiCore_bounds _ _ _ h
  · exact goAtoiCore_bounds _ _ _ h

theorem parsePositiveInt_pos (raw : GoStr) (fb : Int) (hfb : 0 < fb) :
    0 < parsePositiveInt raw fb := by
  unfold parsePositiveInt
  split
  · exact hfb
  · split
    · exact hfb
    · split
      · exact hfb
      · omega

theorem parsePositiveInt_le_max (raw : GoStr) (fb : Int) (hfb : fb ≤ int64Max) :
    parsePositiveInt raw fb ≤ int64Max := by
  unfold parsePositiveInt
  split
  · exact hfb
  · split
    · exact hfb
    · rename_i v hv
      split
      · exact hfb
      · exact (goAtoi_bounds raw v hv).2

theorem parsePositiveInt_fallback (raw : GoStr) (fb v : Int)
    (hv : goAtoi raw = some v) (hle : v ≤ 0) : parsePositiveInt raw fb = fb := by
  unfold parsePositiveInt
  split
  · rfl
  · rw [hv]
    simp [hle]

theorem wrap64_eq_self (x : Int) (h1 : int64Min ≤ x) (h2 : x ≤ int64Max) :
    wrap64 x = x := by
  unfold wrap64
  unfold int64Min at h1
  unfold int64Max at h2
  rw [Int.emod_eq_of_lt (by omega) (by omega)]
  omega

theorem parsePositiveInt_of_pos (raw : GoStr) (fb v : Int)
    (hv : goAtoi raw = some v) (hpos : 0 < v) : parsePositiveInt raw fb = v := by
  unfold parsePositiveInt
  split
  · rename_i hemp
    rw [List.isEmpty_iff] at hemp
    rw [hemp] at hv
    exact absurd hv (by simp [goAtoi, goAtoiCore])
  · rw [hv]
    show (if v ≤ 0 then fb else v) = v
    rw [if_neg (by omega)]

/-- C7 counterexample page parameter: the decimal literal 2^62 + 1. -/
def bigPageRaw : GoStr := "4611686018427387905".toList

/-- C7: counterexample.  With `page=4611686018427387905` (= 2^62 + 1, which
`strconv.Atoi` accepts) and `limit=100`, Go's 64-bit `int` multiplication
wraps: the computed offset is 0, not `(page - 1) * limit =
461168601842738790400`, so the returned slice starts at row 0. -/
theorem C7_counterexample :
    listPaging bigPageRaw "100".toList =
      { page := 4611686018427387905, limit := 100, offset := 0 } ∧
    ((4611686018427387905 - 1) * 100 : Int) ≠ 0 := by
  constructor
  · decide
  · decide

/-- C7 (amended): the effective page is at least 1 and values parsing to
≤ 0 fall back to 1; the effective limit is 30 when the parameter is absent
or parses non-positive, always lies in 1..100, and values parsing above 100
are clamped to 100; the offset equals `(page - 1) * limit` computed in
wrapping 64-bit arithmetic, which coincides with the exact product whenever
that product fits in a signed 64-bit int. -/
theorem C7_paging_bounds (pageRaw limitRaw : GoStr) :
    1 ≤ (listPaging pageRaw limitRaw).page ∧
    (∀ v, goAtoi pageRaw = some v → v ≤ 0 →
      (listPaging pageRaw limitRaw).page = 1) ∧
    (limitRaw = [] → (listPaging pageRaw limitRaw).limit = 30) ∧
    (∀ v, goAtoi limitRaw = some v → v ≤ 0 →
      (listPaging pageRaw limitRaw).limit = 30) ∧
    1 ≤ (listPaging pageRaw limitRaw).limit ∧
    (listPaging pageRaw limitRaw).limit ≤ 100 ∧
    (∀ v, goAtoi limitRaw = some v → 100 < v →
      (listPaging pageRaw limitRaw).limit = 100) ∧
    (listPaging pageRaw limitRaw).offset =
      wrap64 (wrap64 ((listPaging pageRaw limitRaw).page - 1) *
        (listPaging pageRaw limitRaw).limit) ∧
    (((listPaging pageRaw limitRaw).page - 1) *
        (listPaging pageRaw limitRaw).limit ≤ int64Max →
      (listPaging pageRaw limitRaw).offset =
        ((listPaging pageRaw limitRaw).page - 1) *
          (listPaging pageRaw limitRaw).limit) := by
  have hpage : (listPaging pageRaw limitRaw).page = parsePositiveInt pageRaw 1 := rfl
  have hlimit : (listPaging pageRaw limitRaw).limit =
      (if parsePositiveInt limitRaw 30 > 100 then 100
       else parsePositiveInt limitRaw 30) := rfl
  have hppos : 0 < parsePositiveInt pageRaw 1 :=
    parsePositiveInt_pos pageRaw 1 (by norm_num)
  have hpmax : parsePositiveInt pageRaw 1 ≤ int64Max :=
    parsePositiveInt_le_max pageRaw 1 (by norm_num [int64Max])
  have hlpos : 0 < parsePositiveInt limitRaw 30 :=
    parsePositiveInt_pos limitRaw 30 (by norm_num)
  have hl1 : 1 ≤ (listPaging pageRaw limitRaw).limit := by
    rw [hlimit]
    split
    · norm_num
    · omega
  have hl100 : (listPaging pageRaw limitRaw).limit ≤ 100 := by
    rw [hlimit]
    split
    · norm_num
    · omega
  refine ⟨by rw [hpage]; omega, ?_, ?_, ?_, hl1, hl100, ?_, rfl, ?_⟩
  · intro v hv hle
    rw [hpage, parsePositiveInt_fallback pageRaw 1 v hv hle]
  · intro hnil
    rw [hlimit, hnil]
    norm_num [parsePositiveInt]
  · intro v hv hle
    rw [hlimit, parsePositiveInt_fallback limitRaw 30 v hv hle]
    norm_num
  · intro v hv hgt
    rw [hlimit, parsePositiveInt_of_pos limitRaw 30 v hv (by omega)]
    simp [hgt]
  · intro hfit
    rw [hpage, hlimit] at hfit ⊢
    have hoffset : (listPaging pageRaw limitRaw).offset =
        wrap64 (wrap64 (parsePositiveInt pageRaw 1 - 1) *
          (if parsePositiveInt limitRaw 30 > 100 then 100
           else parsePositiveInt limitRaw 30)) := rfl
    rw [hoffset]
    have hw1 : wrap64 (parsePositiveInt pageRaw 1 - 1) =
        parsePositiveInt pageRaw 1 - 1 := by
      apply wrap64_eq_self
      · unfold int64Min
        omega
      · unfold int64Max at hpmax ⊢
        omega
    rw [hw1]
    apply wrap64_eq_self
    · have h0 : (0 : Int) ≤ (parsePositiveInt pageRaw 1 - 1) *
          (if parsePositiveInt limitRaw 30 > 100 then 100
           else parsePositiveInt limitRaw 30) := by
        apply mul_nonneg
        · omega
        · split
          · norm_num
          · omega
      unfold int64Min
      omega
    · exact hfit

/-- C7 witness: `page=0` falls back to 1, `limit=500` is clamped to 100, and
the offset is the exact product 0. -/
theorem C7_paging_bounds_witness :
    (listPaging "0".toList "500".toList).page = 1 ∧
    (listPaging "0".toList "500".toList).limit = 100 ∧
    (listPaging "0".toList "500".toList).offset = 0 := by
  have h := C7_paging_bounds "0".toList "500".toList
  have hp : (listPaging "0".toList "500".toList).page = 1 :=
    h.2.1 0 rfl (by norm_num)
  have hl : (listPaging "0".toList "500".toList).limit = 100 :=
    h.2.2.2.2.2.2.1 500 rfl (by norm_num)
  have ho := h.2.2.2.2.2.2.2.2 (by rw [hp, hl]; norm_num [int64Max])
  rw [hp, hl] at ho
  exact ⟨hp, hl, by rw [ho]; norm_num⟩

/-- `true` iff `pat` occurs at the start of `s`. -/
def leadMatch : GoStr → GoStr → Bool
  | [], _ => true
  | _ :: _, [] => false
  | p :: ps, c :: cs => p == c && leadMatch ps cs

/-- Substring containment. -/
def containsSub (hay pat : GoStr) : Bool :=
  hay.tails.any (fun t => leadMatch pat t)

/-- Postgres `hay ILIKE '%' || pat || '%'`: case-insensitive containment
(the list handler's patterns carry no further wildcards). -/
def goILike (hay pat : GoStr) : Bool :=
  containsSub (goToLower hay) (goToLower pat)

/-- The WHERE clause of the COUNT query (main.go lines 426-432): empty query
or ILIKE on title or content, empty tag or `tag = ANY(tags)`, and favorite
NULL or equal. -/
def countMatches (q t : GoStr) (fav : Option Bool) (n : Note) : Bool :=
  (q.isEmpty || goILike n.title q || goILike n.content q) &&
  (t.isEmpty || n.tags.contains t) &&
  (match fav with
   | none => true
   | some b => n.isFavorite == b)

/-- The WHERE clause of the page query (main.go lines 440-445), textually
identical to the COUNT query's. -/
def pageMatches (q t : GoStr) (fav : Option Bool) (n : Note) : Bool :=
  (q.isEmpty || goILike n.title q || goILike n.content q) &&
  (t.isEmpty || n.tags.contains t) &&
  (match fav with
   | none => true
   | some b => n.isFavorite == b)

/-- `ORDER BY updated_at DESC`: `a` precedes `b` when `b.updatedAt ≤
a.updatedAt`. -/
def updGe (a b : Note) : Prop :=
  b.updatedAt ≤ a.updatedAt

instance : DecidableRel updGe :=
  fun a b => Nat.decLe b.updatedAt a.updatedAt

instance : IsTotal Note updGe :=
  ⟨fun a b => Nat.le_total b.updatedAt a.updatedAt⟩

instance : IsTrans Note updGe :=
  ⟨fun _ _ _ hab hbc => Nat.le_trans hbc hab⟩

/-- The row order produced by `ORDER BY updated_at DESC` (ties in any stable
order). -/
def sortNotes (l : List Note) : List Note :=
  List.insertionSort updGe l

/-- The COUNT query (main.go lines 426-438). -/
def runCountQuery (db : List Note) (q t : GoStr) (fav : Option Bool) : Nat :=
  (db.filter (countMatches q t fav)).length

/-- The page query (main.go lines 440-448): WHERE, ORDER BY, then OFFSET and
LIMIT; Postgres rejects a negative OFFSET or LIMIT with an error. -/
def runPageQuery (db : List Note) (q t : GoStr) (fav : Option Bool)
    (limit offset : Int) : Except Unit (List Note) :=
  if offset < 0 ∨ limit < 0 then .error ()
  else .ok (((sortNotes (db.filter (pageMatches q t fav))).drop offset.toNat).take
    limit.toNat)

/-- The strings Go `strconv.ParseBool` accepts as true. -/
def trueLits : List GoStr :=
  ["1".toList, "t".toList, "T".toList, "TRUE".toList, "true".toList, "True".toList]

/-- The strings Go `strconv.ParseBool` accepts as false. -/
def falseLits : List GoStr :=
  ["0".toList, "f".toList, "F".toList, "FALSE".toList, "false".toList, "False".toList]

/-- Go `strconv.ParseBool`. -/
def goParseBool (s : GoStr) : Option Bool :=
  if s ∈ trueLits then some true
  else if s ∈ falseLits then some false
  else none

/-- The 400 response for a malformed favorite parameter (main.go line 413). -/
def favErrorResp : Response :=
  writeError 400 "favorite must be true or false".toList

/-- The favorite-parameter stage of `handleListNotes` (main.go lines
408-417): trim; empty means no filter; otherwise `ParseBool` or 400. -/
def parseFavoriteParam (raw : GoStr) : Except Response (Option Bool) :=
  if trimSpace raw = [] then .ok none
  else
    match goParseBool (trimSpace raw) with
    | none => .error favErrorResp
    | some b => .ok (some b)

/-- `handleListNotes` (main.go lines 404-475): parse the favorite filter
(400 on failure), compute paging, run the COUNT query and the page query
over the trimmed query/tag parameters, and answer items + page + limit +
total. -/
def handleListNotes (db : List Note) (queryRaw tagRaw favoriteRaw pageRaw limitRaw :
    GoStr) : Response :=
  match parseFavoriteParam favoriteRaw with
  | .error resp => resp
  | .ok favorite =>
    match runPageQuery db (trimSpace queryRaw) (trimSpace tagRaw) favorite
        (listPaging pageRaw limitRaw).limit (listPaging pageRaw limitRaw).offset with
    | .error _ => writeError 500 "database error".toList
    | .ok items =>
      .okList items (listPaging pageRaw limitRaw).page
        (listPaging pageRaw limitRaw).limit
        (runCountQuery db (trimSpace queryRaw) (trimSpace tagRaw) favorite)

/-- `handleUpdateNote` after JSON decoding (main.go lines 545-600): UPDATE
with normalized title/tags, verbatim content, `updated_at = NOW()`; 404 when
no row matches.  Returns (response, new table contents). -/
def handleUpdateNote (db : List Note) (id : Nat) (req : NotePayload) (now : Nat) :
    Response × List Note :=
  match db.find? (fun n => n.id == id) with
  | none => (writeError 404 "note not found".toList, db)
  | some n =>
    (.okNote 200 (updateNoteRow req now n),
     db.map (fun m => if m.id == id then updateNoteRow req now m else m))

/-- C10: counterexample.  The claim says every non-empty favorite value
outside the accepted literals yields 400, but a whitespace-only value such
as `" "` is trimmed to empty before the check: the handler applies no
favorite filtering and answers 200, not 400. -/
theorem C10_counterexample :
    parseFavoriteParam [' '] = .ok none ∧
    handleListNotes [] [] [] [' '] [] [] = .okList [] 1 30 0 ∧
    handleListNotes [] [] [] [' '] [] [] ≠ favErrorResp := by
  refine ⟨rfl, rfl, ?_⟩
  decide

theorem parseFavoriteParam_error_shape (raw : GoStr) (r : Response)
    (h : parseFavoriteParam raw = .error r) : r = favErrorResp := by
  unfold parseFavoriteParam at h
  split at h
  · exact absurd h (by simp)
  · split at h
    · injection h with h
      exact h.symm
    · exact absurd h (by simp)

/-- C10 (amended): after trimming, exactly the twelve `strconv.ParseBool`
literals are accepted as the favorite filter; a value whose trim is
non-empty and not among them makes the handler answer 400 with body
`error: favorite must be true or false`; a value that is absent, empty or
whitespace-only (trim empty) applies no favorite filtering. -/
theorem C10_favorite_parsing (raw : GoStr) (db : List Note)
    (qR tR pR lR : GoStr) :
    (trimSpace raw ∈ trueLits → parseFavoriteParam raw = .ok (some true)) ∧
    (trimSpace raw ∈ falseLits → parseFavoriteParam raw = .ok (some false)) ∧
    (trimSpace raw = [] → parseFavoriteParam raw = .ok none) ∧
    (trimSpace raw ≠ [] → trimSpace raw ∉ trueLits → trimSpace raw ∉ falseLits →
      parseFavoriteParam raw = .error favErrorResp ∧
      handleListNotes db qR tR raw pR lR = favErrorResp) := by
  refine ⟨?_, ?_, ?_, ?_⟩
  · intro hmem
    have hne : trimSpace raw ≠ [] := by
      intro hc
      rw [hc] at hmem
      exact absurd hmem (by decide)
    unfold parseFavoriteParam goParseBool
    simp [hne, hmem]
  · intro hmem
    have hne : trimSpace raw ≠ [] := by
      intro hc
      rw [hc] at hmem
      exact absurd hmem (by decide)
    have hdisj : ∀ s ∈ trueLits, s ∉ falseLits := by decide
    have hnt : trimSpace raw ∉ trueLits := fun hc => hdisj _ hc hmem
    unfold parseFavoriteParam goParseBool
    simp [hne, hmem, hnt]
  · intro hnil
    unfold parseFavoriteParam
    simp [hnil]
  · intro hne hnt hnf
    have herr : parseFavoriteParam raw = .error favErrorResp := by
      unfold parseFavoriteParam goParseBool
      simp [hne, hnt, hnf]
    refine ⟨herr, ?_⟩
    unfold handleListNotes
    rw [herr]

/-- C10 witness: `"T"` is accepted as true, `" False "` as false, and
`"yes"` draws the 400 response from a concrete list call. -/
theorem C10_favorite_parsing_witness :
    parseFavoriteParam ['T'] = .ok (some true) ∧
    parseFavoriteParam [' ', 'F', 'a', 'l', 's', 'e', ' '] = .ok (some false) ∧
    handleListNotes [] [] [] ['y', 'e', 's'] [] [] = favErrorResp :=
  ⟨(C10_favorite_parsing ['T'] [] [] [] [] []).1 (by decide),
   (C10_favorite_parsing [' ', 'F', 'a', 'l', 's', 'e', ' '] [] [] [] [] []).2.1
     (by decide),
   ((C10_favorite_parsing ['y', 'e', 's'] [] [] [] [] []).2.2.2 (by decide)
     (by decide) (by decide)).2⟩

/-- C3: whenever a list call answers 200, the two WHERE predicates (COUNT
query and page query) are the same function; the returned total counts
exactly the rows satisfying the page query's predicate — independent of the
page and limit parameters, which do not appear in it and leave the total of
any other call with the same filter unchanged; and the returned items are
the offset/limit slice of the rows matching the COUNT query's predicate in
`updated_at`-descending order. -/
theorem C3_list_total_consistent (db : List Note) (qRaw tRaw fRaw pRaw lRaw : GoStr)
    (fav : Option Bool) (items : List Note) (pg lim : Int) (total : Nat)
    (hpf : parseFavoriteParam fRaw = .ok fav)
    (h : handleListNotes db qRaw tRaw fRaw pRaw lRaw = .okList items pg lim total) :
    countMatches = pageMatches ∧
    total = (db.filter (pageMatches (trimSpace qRaw) (trimSpace tRaw) fav)).length ∧
    items = ((sortNotes (db.filter
        (countMatches (trimSpace qRaw) (trimSpace tRaw) fav))).drop
      (listPaging pRaw lRaw).offset.toNat).take (listPaging pRaw lRaw).limit.toNat ∧
    (∀ pRaw' lRaw' (items' : List Note) (pg' lim' : Int) (total' : Nat),
      handleListNotes db qRaw tRaw fRaw pRaw' lRaw' = .okList items' pg' lim' total' →
      total' = total) := by
  have hcm : countMatches = pageMatches := rfl
  unfold handleListNotes at h
  split at h
  · rename_i resp heq
    rw [hpf] at heq
    exact absurd heq (by simp)
  · rename_i favorite heq
    rw [hpf] at heq
    injection heq with heq
    subst heq
    split at h
    · exact absurd h (by simp [writeError])
    · rename_i items0 hrp
      simp only [Response.okList.injEq] at h
      obtain ⟨hitems, _, _, htotal⟩ := h
      unfold runPageQuery at hrp
      split at hrp
      · exact absurd hrp (by simp)
      · injection hrp with hrp
        refine ⟨hcm, ?_, ?_, ?_⟩
        · rw [← htotal]
          rw [← hcm]
          rfl
        · rw [← hitems, ← hrp, hcm]
        · intro pRaw' lRaw' items' pg' lim' total' h'
          unfold handleListNotes at h'
          split at h'
          · rename_i resp' heq'
            rw [hpf] at heq'
            exact absurd heq' (by simp)
          · rename_i favorite' heq'
            rw [hpf] at heq'
            injection heq' with heq'
            subst heq'
            split at h'
            · exact absurd h' (by simp [writeError])
            · simp only [Response.okList.injEq] at h'
              rw [← h'.2.2.2, ← htotal]

/-- C3 witness: a one-row table listed with empty parameters answers 200
with total 1 and that row as the single item of the slice. -/
theorem C3_list_total_consistent_witness :
    countMatches = pageMatches ∧
    (1 : Nat) = ([exampleNote].filter (pageMatches [] [] none)).length ∧
    [exampleNote] = ((sortNotes ([exampleNote].filter
        (countMatches [] [] none))).drop
      (listPaging [] []).offset.toNat).take (listPaging [] []).limit.toNat := by
  have h := C3_list_total_consistent [exampleNote] [] [] [] [] [] none
    [exampleNote] 1 30 1 rfl rfl
  exact ⟨h.1, h.2.1, h.2.2.1⟩

theorem pageMatches_nil (n : Note) : pageMatches [] [] none n = true :=
  rfl

theorem sortNotes_sorted (l : List Note) : (sortNotes l).Sorted updGe :=
  List.sorted_insertionSort updGe l

theorem sortNotes_perm (l : List Note) : (sortNotes l).Perm l :=
  List.perm_insertionSort updGe l

theorem head_id_of_max (l : List Note) (x : Note)
    (hs : l.Sorted updGe) (hx : x ∈ l)
    (hmax : ∀ y ∈ l, y = x ∨ y.updatedAt < x.updatedAt) :
    l.head?.map Note.id = some x.id := by
  cases l with
  | nil => cases hx
  | cons h t =>
    have hh : ∀ y ∈ t, updGe h y := (List.sorted_cons.mp hs).1
    rcases hmax h (List.mem_cons_self h t) with heq | hlt
    · rw [heq]
      rfl
    · rcases List.mem_cons.mp hx with heq | hxt
      · rw [heq] at hlt
        exact absurd hlt (lt_irrefl _)
      · have hle := hh x hxt
        unfold updGe at hle
        omega

/-- C5: list results are sorted by `updated_at` descending (for every table
and filter); update refreshes the updated row's `updated_at` to the server
clock; and after updating note `id` — under a unique-id table whose other
rows all have `updated_at` strictly below the update's clock reading (no
later write, monotone clock) — that note is the first item of the
unfiltered, sorted result the list call slices from. -/
theorem C5_list_sorted_update_first (db : List Note) (id now : Nat)
    (req : NotePayload)
    (hnodup : (db.map Note.id).Nodup)
    (hmem : ∃ n ∈ db, n.id = id)
    (hfresh : ∀ m ∈ db, m.id ≠ id → m.updatedAt < now) :
    (∀ (db' : List Note) (q t : GoStr) (fav : Option Bool),
        (sortNotes (db'.filter (pageMatches q t fav))).Sorted updGe) ∧
    (∃ n, (handleUpdateNote db id req now).1 = .okNote 200 n ∧ n.updatedAt = now) ∧
    (sortNotes (((handleUpdateNote db id req now).2).filter
        (pageMatches [] [] none))).head?.map Note.id = some id := by
  obtain ⟨n, hn, hnid⟩ := hmem
  cases hfind : db.find? (fun m => m.id == id) with
  | none =>
    rw [List.find?_eq_none] at hfind
    exact absurd (by simp [hnid]) (hfind n hn)
  | some n0 =>
    have hn0id : n0.id = id := by
      have := List.find?_some hfind
      simpa using this
    have hn0mem : n0 ∈ db := List.mem_of_find?_eq_some hfind
    have hupd : handleUpdateNote db id req now =
        (.okNote 200 (updateNoteRow req now n0),
         db.map (fun m => if m.id == id then updateNoteRow req now m else m)) := by
      unfold handleUpdateNote
      rw [hfind]
    refine ⟨fun db' q t fav => sortNotes_sorted _, ?_, ?_⟩
    · exact ⟨updateNoteRow req now n0, by rw [hupd], rfl⟩
    · rw [hupd]
      have hfilter : (db.map (fun m => if m.id == id then updateNoteRow req now m
          else m)).filter (pageMatches [] [] none) =
          db.map (fun m => if m.id == id then updateNoteRow req now m else m) :=
        List.filter_eq_self.mpr (fun y _ => pageMatches_nil y)
      rw [hfilter]
      set x := updateNoteRow req now n0 with hx
      have hxmem : x ∈ db.map (fun m => if m.id == id then updateNoteRow req now m
          else m) :=
        List.mem_map.mpr ⟨n0, hn0mem, by simp [hn0id]⟩
      have hmax : ∀ y ∈ db.map (fun m => if m.id == id then updateNoteRow req now m
          else m), y = x ∨ y.updatedAt < x.updatedAt := by
        intro y hy
        obtain ⟨m, hm, hfm⟩ := List.mem_map.mp hy
        by_cases hid : m.id = id
        · left
          have hmn0 : m = n0 :=
            List.inj_on_of_nodup_map hnodup hm hn0mem (hid.trans hn0id.symm)

          rw [← hfm, hmn0]
          simp [hn0id]
        · right
          rw [← hfm]
          simp only [beq_iff_eq, hid, if_false]
          exact hfresh m hm hid
      have hsorted := sortNotes_sorted (db.map (fun m =>
        if m.id == id then updateNoteRow req now m else m))
      have hperm := sortNotes_perm (db.map (fun m =>
        if m.id == id then updateNoteRow req now m else m))
      have hres := head_id_of_max _ x hsorted (hperm.mem_iff.mpr hxmem)
        (fun y hy => hmax y (hperm.mem_iff.mp hy))
      rw [hres, hx]
      show some n0.id = some id
      rw [hn0id]

/-- A two-row table with distinct ids and old timestamps, used to exercise
the update-then-list scenario. -/
def dbC5 : List Note :=
  [{ id := 1, title := ['a'], content := [], tags := [], isFavorite := false,
     createdAt := 0, updatedAt := 0 },
   { id := 2, title := ['b'], content := [], tags := [], isFavorite := false,
     createdAt := 1, updatedAt := 1 }]

/-- C5 witness: after updating note 1 at clock 5 in the concrete two-row
table, the unfiltered sorted listing puts note 1 first, and the sorted
listing is indeed `updated_at`-descending. -/
theorem C5_list_sorted_update_first_witness :
    (sortNotes (dbC5.filter (pageMatches [] [] none))).Sorted updGe ∧
    (sortNotes (((handleUpdateNote dbC5 1 blankTitleReq 5).2).filter
        (pageMatches [] [] none))).head?.map Note.id = some 1 := by
  have h := C5_list_sorted_update_first dbC5 1 5 blankTitleReq (by decide)
    (by decide) (by decide)
  exact ⟨h.1 dbC5 [] [] none, h.2.2⟩

/-- Byte-wise lexicographic strict order on strings: the comparison behind
Go `sort.Strings`. -/
def strLt : GoStr → GoStr → Bool
  | [], [] => false
  | [], _ :: _ => true
  | _ :: _, [] => false
  | a :: as, b :: bs => if a < b then true else if b < a then false else strLt as bs

/-- `a` precedes or equals `b` lexicographically. -/
def strLeP (a b : GoStr) : Prop :=
  strLt b a = false

instance : DecidableRel strLeP :=
  fun a b => Bool.decEq (strLt b a) false

theorem strLt_asymm : ∀ a b, strLt a b = true → strLt b a = false
  | [], [] => by intro h; exact absurd h (by simp [strLt])
  | [], _ :: _ => by intro _; rfl
  | _ :: _, [] => by intro h; exact absurd h (by simp [strLt])
  | x :: xs, y :: ys => by
    intro h
    simp only [strLt] at h ⊢
    by_cases h1 : x < y
    · rw [if_neg (lt_asymm h1), if_pos h1]
    · by_cases h2 : y < x
      · rw [if_neg h1, if_pos h2] at h
        exact absurd h (by simp)
      · rw [if_neg h2, if_neg h1]
        rw [if_neg h1, if_neg h2] at h
        exact strLt_asymm xs ys h

theorem chars_eq_of_not_lt (x y : Char) (h1 : ¬ x < y) (h2 : ¬ y < x) : x = y := by
  rcases lt_trichotomy x y with h | h | h
  · exact absurd h h1
  · exact h
  · exact absurd h h2

theorem strLt_trans : ∀ a b c, strLt a b = true → strLt b c = true → strLt a c = true
  | a, [], _ => by
    intro hab _
    cases a <;> simp [strLt] at hab
  | [], _ :: _, [] => by
    intro _ hbc
    simp [strLt] at hbc
  | [], _ :: _, _ :: _ => by
    intro _ _
    rfl
  | _ :: _, _ :: _, [] => by
    intro _ hbc
    simp [strLt] at hbc
  | x :: xs, y :: ys, z :: zs => by
    intro hab hbc
    simp only [strLt] at hab hbc ⊢
    by_cases h1 : x < y
    · by_cases h2 : y < z
      · rw [if_pos (lt_trans h1 h2)]
      · by_cases h3 : z < y
        · rw [if_neg h2, if_pos h3] at hbc
          exact absurd hbc (by simp)
        · have hyz : y = z := chars_eq_of_not_lt y z h2 h3
          subst hyz
          rw [if_pos h1]
    · by_cases h1' : y < x
      · rw [if_neg h1, if_pos h1'] at hab
        exact absurd hab (by simp)
      · have hxy : x = y := chars_eq_of_not_lt x y h1 h1'
        subst hxy
        rw [if_neg h1, if_neg h1'] at hab
        by_cases h2 : x < z
        · rw [if_pos h2]
        · by_cases h3 : z < x
          · rw [if_neg h2, if_pos h3] at hbc
            exact absurd hbc (by simp)
          · rw [if_neg h2, if_neg h3] at hbc ⊢
            exact strLt_trans xs ys zs hab hbc

theorem strLt_trichotomy : ∀ a b, strLt a b = true ∨ strLt b a = true ∨ a = b
  | [], [] => Or.inr (Or.inr rfl)
  | [], _ :: _ => Or.inl rfl
  | _ :: _, [] => Or.inr (Or.inl rfl)
  | x :: xs, y :: ys => by
    rcases lt_trichotomy x y with h | h | h
    · left
      simp only [strLt]
      rw [if_pos h]
    · subst h
      rcases strLt_trichotomy xs ys with h' | h' | h'
      · left
        simp only [strLt]
        rw [if_neg (lt_irrefl x), if_neg (lt_irrefl x)]
        exact h'
      · right; left
        simp only [strLt]
        rw [if_neg (lt_irrefl x), if_neg (lt_irrefl x)]
        exact h'
      · right; right
        rw [h']
    · right; left
      simp only [strLt]
      rw [if_pos h]

instance : IsTotal GoStr strLeP :=
  ⟨fun a b => by
    unfold strLeP
    cases h : strLt b a with
    | false => exact Or.inl rfl
    | true => exact Or.inr (strLt_asymm b a h)⟩

instance : IsTrans GoStr strLeP :=
  ⟨fun a b c hab hbc => by
    unfold strLeP at hab hbc ⊢
    by_contra hca
    rw [Bool.not_eq_false] at hca
    rcases strLt_trichotomy a b with h | h | h
    · have := strLt_trans c a b hca h
      rw [hbc] at this
      exact absurd this (by simp)
    · rw [hab] at h
      exact absurd h (by simp)
    · subst h
      rw [hbc] at hca
      exact absurd hca (by simp)⟩

/-- One entry of `os.ReadDir`'s result: a file or directory name plus the
directory flag. -/
structure DirEntry where
  name : GoStr
  dir : Bool
deriving DecidableEq

/-- Go `strings.HasSuffix s suf`. -/
def goHasSuffix (s suf : GoStr) : Bool :=
  List.isSuffixOf suf s

/-- The migration-file filter of `runMigrations` (main.go lines 132-141):
skip directories, keep names ending in `.sql`. -/
def sqlFiles (entries : List DirEntry) : List GoStr :=
  ((entries.filter (fun e => !e.dir)).map DirEntry.name).filter
    (fun n => goHasSuffix n ".sql".toList)

/-- Go `sort.Strings` (main.go line 142): ascending lexicographic order. -/
def sortStrings (l : List GoStr) : List GoStr :=
  List.insertionSort strLeP l

/-- The list of migration names `runMigrations` iterates, in order. -/
def processOrder (entries : List DirEntry) : List GoStr :=
  sortStrings (sqlFiles entries)

/-- Database state owned by the migrator: the `schema_migrations` ledger
(applied names) and the schema effects (executed migration contents, in
execution order). -/
structure MigState where
  ledger : List GoStr
  schema : List GoStr
deriving DecidableEq

/-- An open transaction: buffered state, visible only on commit. -/
structure Tx where
  pending : MigState
deriving DecidableEq

/-- `tx.Exec(ctx, content)`: fails if the statement fails, else buffers the
schema change in the transaction. -/
def txExec (failing : GoStr → Bool) (tx : Tx) (stmt : GoStr) : Option Tx :=
  if failing stmt then none
  else some ⟨{ tx.pending with schema := tx.pending.schema ++ [stmt] }⟩

/-- `tx.Exec(ctx, INSERT INTO schema_migrations ...)`: buffers the ledger
insert in the transaction. -/
def txInsertLedger (tx : Tx) (name : GoStr) : Tx :=
  ⟨{ tx.pending with ledger := tx.pending.ledger ++ [name] }⟩

/-- `tx.Commit`: publish the buffered state. -/
def txCommit (tx : Tx) : MigState :=
  tx.pending

/-- One iteration of `runMigrations`' loop (main.go lines 144-176): skip a
name already in the ledger; otherwise begin a transaction, execute the
file's contents (rollback and fail the run on error, leaving the published
state untouched), insert the ledger entry, and commit both together. -/
def stepMigration (failing : GoStr → Bool) (content : GoStr → GoStr)
    (st : MigState) (name : GoStr) : Except GoStr MigState :=
  if name ∈ st.ledger then .ok st
  else
    match txExec failing ⟨st⟩ (content name) with
    | none => .error name
    | some tx => .ok (txCommit (txInsertLedger tx name))

/-- The loop of `runMigrations` over an explicit name list: aborts at the
first failing migration, returning the published database state at that
point together with the error. -/
def runMigrationsFrom (failing : GoStr → Bool) (content : GoStr → GoStr)
    (st : MigState) : List GoStr → MigState × Option GoStr
  | [] => (st, none)
  | name :: rest =>
    match stepMigration failing content st name with
    | .error e => (st, some e)
    | .ok st' => runMigrationsFrom failing content st' rest

/-- `runMigrations` (main.go lines 122-179): filter and sort the directory
entries, then apply each pending migration in order. -/
def runMigrations (failing : GoStr → Bool) (content : GoStr → GoStr)
    (entries : List DirEntry) (st : MigState) : MigState × Option GoStr :=
  runMigrationsFrom failing content st (processOrder entries)

theorem runMigrationsFrom_error (failing : GoStr → Bool) (content : GoStr → GoStr) :
    ∀ (names : List GoStr) (st st' : MigState) (e : GoStr),
    runMigrationsFrom failing content st names = (st', some e) →
    ∃ pre name post, names = pre ++ name :: post ∧
      runMigrationsFrom failing content st pre = (st', none) ∧
      stepMigration failing content st' name = .error e
  | [], st, st', e => by
    intro h
    simp [runMigrationsFrom] at h
  | name :: rest, st, st', e => by
    intro h
    unfold runMigrationsFrom at h
    cases hs : stepMigration failing content st name with
    | error e0 =>
      rw [hs] at h
      injection h with h1 h2
      injection h2 with h2
      refine ⟨[], name, rest, rfl, ?_, ?_⟩
      · rw [← h1]
        rfl
      · rw [← h1, hs, h2]
    | ok st1 =>
      rw [hs] at h
      obtain ⟨pre, nm, post, hn, hrun, hstep⟩ :=
        runMigrationsFrom_error failing content rest st1 st' e h
      refine ⟨name :: pre, nm, post, by rw [hn]; rfl, ?_, hstep⟩
      show runMigrationsFrom failing content st (name :: pre) = (st', none)
      unfold runMigrationsFrom
      rw [hs]
      exact hrun

/-- C2: the migration runner processes exactly the `.sql` files of the
directory, in lexicographically sorted order; a name already in the ledger
leaves the state untouched; a pending name whose contents execute cleanly
commits the schema change and the ledger entry together; a pending name
whose contents fail produces an error with no state change; and when the
whole run fails, it aborted at the first failing file, the final state is
exactly the state after the files before it, and neither that file's schema
change nor its ledger entry is committed. -/
theorem C2_migrations_atomic (failing : GoStr → Bool) (content : GoStr → GoStr)
    (entries : List DirEntry) (st st' : MigState) (e : GoStr) :
    (processOrder entries).Sorted strLeP ∧
    (processOrder entries).Perm (sqlFiles entries) ∧
    (∀ name stx, name ∈ stx.ledger →
      stepMigration failing content stx name = .ok stx) ∧
    (∀ name stx, name ∉ stx.ledger → failing (content name) = false →
      stepMigration failing content stx name =
        .ok { ledger := stx.ledger ++ [name],
              schema := stx.schema ++ [content name] }) ∧
    (∀ name stx, name ∉ stx.ledger → failing (content name) = true →
      stepMigration failing content stx name = .error name) ∧
    (runMigrations failing content entries st = (st', some e) →
      ∃ pre name post, processOrder entries = pre ++ name :: post ∧
        runMigrationsFrom failing content st pre = (st', none) ∧
        stepMigration failing content st' name = .error e) := by
  refine ⟨List.sorted_insertionSort strLeP _, List.perm_insertionSort strLeP _,
    ?_, ?_, ?_, ?_⟩
  · intro name stx hmem
    unfold stepMigration
    rw [if_pos hmem]
  · intro name stx hmem hok
    unfold stepMigration txExec txInsertLedger txCommit
    rw [if_neg hmem, hok]
    rfl
  · intro name stx hmem hfail
    unfold stepMigration txExec
    rw [if_neg hmem, hfail]
    rfl
  · exact runMigrationsFrom_error failing content (processOrder entries) st st' e

/-- Migration witness data: contents, with `002_b.sql` mapped to a failing
statement. -/
def contentW : GoStr → GoStr :=
  fun n => if n = "002_b.sql".toList then "BAD".toList else "OK".toList

/-- Migration witness data: exactly the statement `BAD` fails. -/
def failingW : GoStr → Bool :=
  fun c => c == "BAD".toList

/-- Migration witness data: an unsorted directory with two pending `.sql`
files, a non-`.sql` file, and a directory whose name ends in `.sql`. -/
def entriesW : List DirEntry :=
  [{ name := "002_b.sql".toList, dir := false },
   { name := "001_a.sql".toList, dir := false },
   { name := "junk.txt".toList, dir := false },
   { name := "dir.sql".toList, dir := true }]

/-- C2 witness: on the concrete directory, a ledgered name is skipped
unchanged, a clean pending name commits contents and ledger entry together,
a failing pending name errors, and the full run aborts at `002_b.sql`
leaving exactly the state produced by `001_a.sql`. -/
theorem C2_migrations_atomic_witness :
    stepMigration failingW contentW
      { ledger := ["001_a.sql".toList], schema := ["OK".toList] }
      "001_a.sql".toList =
      .ok { ledger := ["001_a.sql".toList], schema := ["OK".toList] } ∧
    stepMigration failingW contentW { ledger := [], schema := [] }
      "001_a.sql".toList =
      .ok { ledger := ["001_a.sql".toList], schema := ["OK".toList] } ∧
    stepMigration failingW contentW
      { ledger := ["001_a.sql".toList], schema := ["OK".toList] }
      "002_b.sql".toList = .error "002_b.sql".toList ∧
    runMigrations failingW contentW entriesW { ledger := [], schema := [] } =
      ({ ledger := ["001_a.sql".toList], schema := ["OK".toList] },
       some "002_b.sql".toList) := by
  have h := C2_migrations_atomic failingW contentW entriesW
    { ledger := [], schema := [] }
    { ledger := ["001_a.sql".toList], schema := ["OK".toList] }
    "002_b.sql".toList
  refine ⟨h.2.2.1 "001_a.sql".toList _ (by decide), ?_, ?_, by decide⟩
  · have hstep := h.2.2.2.1 "001_a.sql".toList { ledger := [], schema := [] }
      (by decide) (by decide)
    rw [hstep]
    rfl
  · exact h.2.2.2.2.1 "002_b.sql".toList _ (by decide) (by decide)

end NotesApp
